import Mathlib

/-!
Shallow embedding of the order execution engine of the paper-trading ledger
(packages/trading/src/orders.ts).  Decimal values are modelled as exact
rationals; the per-user ledger state (balances, positions, orders, trades)
is modelled explicitly, and the Prisma transaction is modelled as an
all-or-nothing state transition: `placeOrder` either returns a fully
committed new state or an error, in which case the caller's state is
unchanged (rollback).

`validation.ts`, `fees.ts`, `portfolio.ts` and the `FEE_RATE` /
`MIN_POSITION_SIZE` constants are not present in the source tree; they are
modelled from the specification and marked as such in their doc comments.
-/

namespace PaperTrading

attribute [local semireducible] Rat.mul Rat.add Rat.sub Rat.inv

instance exceptDecEq {ε α : Type} [DecidableEq ε] [DecidableEq α] :
    DecidableEq (Except ε α) := fun x y =>
  match x, y with
  | .ok a, .ok b =>
      if h : a = b then isTrue (by rw [h]) else isFalse (by simp [h])
  | .error a, .error b =>
      if h : a = b then isTrue (by rw [h]) else isFalse (by simp [h])
  | .ok _, .error _ => isFalse (by simp)
  | .error _, .ok _ => isFalse (by simp)

/-- An asset symbol, e.g. "SOL" or "USDC". -/
abbrev Asset := String

/-- A balance row: per (user, asset) spendable (`available`) and reserved
(`locked`) funds, as in the `balances` table (prisma schema). -/
structure Balance where
  available : ℚ
  locked : ℚ
  deriving DecidableEq

/-- A position row: per (user, asset) units held and volume-weighted
average entry price, as in the `positions` table. -/
structure Position where
  size : ℚ
  avgEntryPrice : ℚ
  deriving DecidableEq

/-- An order row, as created by `placeOrder` in the `orders` table
(fields that the engine writes). -/
structure OrderRow where
  side : String
  type : String
  baseAsset : Asset
  quoteAsset : Asset
  requestedSize : ℚ
  priceAtOrderTime : ℚ
  status : String
  feesApplied : ℚ
  deriving DecidableEq

/-- A trade row, as created by `placeOrder` in the `trades` table. -/
structure TradeRow where
  orderId : Nat
  side : String
  executedPrice : ℚ
  executedSize : ℚ
  fee : ℚ
  deriving DecidableEq

/-- The ledger state of a single user: balance rows and position rows keyed
by asset, plus the append-only order and trade tables. -/
structure AccountState where
  balances : List (Asset × Balance)
  positions : List (Asset × Position)
  orders : List OrderRow
  trades : List TradeRow
  deriving DecidableEq

/-- Row lookup by asset key (the `userId_asset` unique key restricted to a
single user's rows). -/
def lookupA {α : Type} (xs : List (Asset × α)) (a : Asset) : Option α :=
  (xs.find? (fun p => p.1 == a)).map Prod.snd

/-- Row update by asset key (`update where userId_asset`): replaces the
value of every entry whose key is `a`. -/
def updateA {α : Type} (xs : List (Asset × α)) (a : Asset) (v : α) :
    List (Asset × α) :=
  xs.map (fun p => if p.1 == a then (a, v) else p)

/-- The result value returned by `placeOrder` (interface
`PlaceOrderResult`, orders.ts lines 13-19). -/
structure PlaceOrderResult where
  orderId : Nat
  executedSize : ℚ
  executedPrice : ℚ
  feesApplied : ℚ
  status : String
  deriving DecidableEq

/-- The distinct failure points of `placeOrder`, one constructor per throw
site (orders.ts lines 45, 52, 76, 116, 125, each a `throw new Error`
with its own message). -/
inductive OrderError where
  | validationFailed
  | priceNotPositive
  | noQuoteBalance (asset : Asset)
  | insufficientBalance
  | insufficientBase
  deriving DecidableEq

/-- Lock-acquisition events inside the transaction, used to state the
quote-then-base lock ordering (orders.ts lines 67-109): `lockBalance a` is
the `SELECT ... FOR UPDATE` on the balance row of asset `a`, and
`createBalance a av lk` is the lazy `tx.balances.create` for asset `a`. -/
inductive LockEvent where
  | lockBalance (asset : Asset)
  | createBalance (asset : Asset) (available locked : ℚ)
  deriving DecidableEq

/-- Modelled from the spec: the `FEE_RATE` constant is exported by the
trading package but its definition is absent from src.  Per spec section 4.1
(and the repository guidance doc: "fee == 0.1% * executedPrice *
executedSize"), it is the fixed process-wide fraction 0.001. -/
def FEE_RATE : ℚ := 1 / 1000

/-- Modelled from the spec: the `MIN_POSITION_SIZE` configuration is absent
from src (env-configured).  Per spec section 4.4 and the e2e tests
("MIN_POSITION_SIZE = 0.01 per env config"), it is 0.01. -/
def MIN_POSITION_SIZE : ℚ := 1 / 100

/-- Modelled from the spec: `fees.ts` (`calculateFee`) is absent from src.
Per spec section 4.1: `fee(price, size) = price * size * FEE_RATE`. -/
def calculateFee (price size : ℚ) : ℚ :=
  price * size * FEE_RATE

/-- Modelled from the spec: `validation.ts` (`validateOrderInput`) is
absent from src.  Per spec section 4.4 the preconditions checked before any
lock are: `side ∈ {buy, sell}`; order type is `market`; `requestedSize > 0`
and `requestedSize ≥ MIN_POSITION_SIZE`; `baseAsset ≠ quoteAsset`.
(Finiteness is intrinsic to the rational model; the price-positivity check
is done by `placeOrder` itself, orders.ts line 51.) -/
def validateOrderInput (side type baseAsset quoteAsset : String)
    (requestedSize : ℚ) : Bool :=
  (side == "buy" || side == "sell") && (type == "market")
    && decide (0 < requestedSize)
    && decide (MIN_POSITION_SIZE ≤ requestedSize)
    && (baseAsset != quoteAsset)

/-- The balance row of asset `a` as read by `placeOrder`, with the lazy
zero row for a missing base balance (orders.ts lines 91-109). -/
def balOf (st : AccountState) (a : Asset) : Balance :=
  (lookupA st.balances a).getD ⟨0, 0⟩

/-- The position row of asset `a`, with the lazy zero row for a missing
position (orders.ts lines 209-228). -/
def posOf (st : AccountState) (a : Asset) : Position :=
  (lookupA st.positions a).getD ⟨0, 0⟩

/-- The lazy creation of the base balance row under the base-asset lock:
if no row exists, a zero available/locked row is inserted
(orders.ts lines 94-105). -/
def lockBase (st : AccountState) (baseAsset : Asset) : AccountState :=
  match lookupA st.balances baseAsset with
  | none => { st with balances := st.balances ++ [(baseAsset, ⟨0, 0⟩)] }
  | some _ => st

/-- The sequence of lock/create events of the transaction body once the
quote row was found: quote lock, then base lock, then (if the base row is
missing) its lazy creation with zero available/locked. -/
def lockEvents (st : AccountState) (baseAsset quoteAsset : Asset) :
    List LockEvent :=
  [.lockBalance quoteAsset, .lockBalance baseAsset]
    ++ (match lookupA st.balances baseAsset with
        | none => [.createBalance baseAsset 0 0]
        | some _ => [])

/-- The balance mutation step of a filled order (orders.ts lines
158-206): on buy, quote `available -= cost + fee` and base
`available += size`; otherwise (sell) base `available -= size` and quote
`available += price * size - fee`; `locked` is written back unchanged in
all four updates. -/
def applyBalances (st : AccountState) (userSide : String)
    (baseAsset quoteAsset : Asset) (size price : ℚ)
    (quoteBal baseBal : Balance) : AccountState :=
  let cost := size * price
  let fee := calculateFee price size
  if userSide == "buy" then
    let newQuote : Balance := ⟨quoteBal.available - cost - fee, quoteBal.locked⟩
    let newBase : Balance := ⟨baseBal.available + size, baseBal.locked⟩
    let stq := { st with balances := updateA st.balances quoteAsset newQuote }
    { stq with balances := updateA stq.balances baseAsset newBase }
  else
    let newBase : Balance := ⟨baseBal.available - size, baseBal.locked⟩
    let newQuote : Balance := ⟨quoteBal.available + (price * size - fee), quoteBal.locked⟩
    let stb := { st with balances := updateA st.balances baseAsset newBase }
    { stb with balances := updateA stb.balances quoteAsset newQuote }

/-- The new position row computed from the old one (orders.ts lines
230-243): buy — `newSize = size0 + size`, `newAvg = price` if `size0 = 0`
else the volume-weighted average; sell — `newSize = size0 - size`,
`newAvg = 0` if `newSize = 0` else the old average (the execution price is
not read). -/
def positionTransition (userSide : String) (pos : Position)
    (size price : ℚ) : Position :=
  let newSize := if userSide == "buy" then pos.size + size else pos.size - size
  let newAvg :=
    if userSide == "buy" then
      if pos.size = 0 then price
      else (pos.size * pos.avgEntryPrice + price * size) / newSize
    else
      if newSize = 0 then 0 else pos.avgEntryPrice
  ⟨newSize, newAvg⟩

/-- The position mutation step of a filled order (orders.ts lines
208-253): read the position row (lazily creating a zero row if absent)
and write back `positionTransition` of it. -/
def applyPosition (st : AccountState) (userSide : String) (baseAsset : Asset)
    (size price : ℚ) : AccountState :=
  let pos := posOf st baseAsset
  let stp :=
    match lookupA st.positions baseAsset with
    | none =>
        { st with positions := st.positions ++ [(baseAsset, (⟨0, 0⟩ : Position))] }
    | some _ => st
  { stp with positions :=
      updateA stp.positions baseAsset (positionTransition userSide pos size price) }

/-- The mutation sequence of a filled order (orders.ts lines 131-261),
executed after all checks passed, on the state in which the base balance
row already exists (`lockBase`): create the order row (status `filled`),
create the trade row, update the two balance rows by side, then update
the position row; return the execution details. -/
def execFill (st : AccountState) (userSide : String)
    (baseAsset quoteAsset : Asset) (size price : ℚ)
    (quoteBal baseBal : Balance) : AccountState × PlaceOrderResult :=
  let fee := calculateFee price size
  let orderId := st.orders.length
  let order : OrderRow :=
    ⟨userSide, "market", baseAsset, quoteAsset, size, price, "filled", fee⟩
  let st2 := { st with orders := st.orders ++ [order] }
  let trade : TradeRow := ⟨orderId, userSide, price, size, fee⟩
  let st3 := { st2 with trades := st2.trades ++ [trade] }
  let st4 := applyBalances st3 userSide baseAsset quoteAsset size price quoteBal baseBal
  let st5 := applyPosition st4 userSide baseAsset size price
  (st5, ⟨orderId, size, price, fee, "filled"⟩)

/-- The post-lock validation and fill (orders.ts lines 111-261): buy
requires `quoteAvailable ≥ cost + fee`, the sell branch (taken for every
non-"buy" side) requires `baseAvailable ≥ size`; on success the shared
mutation sequence `execFill` runs. -/
def checkAndFill (st : AccountState) (userSide : String)
    (baseAsset quoteAsset : Asset) (size price : ℚ)
    (quoteBal baseBal : Balance) :
    Except OrderError (AccountState × PlaceOrderResult) :=
  let cost := size * price
  let fee := calculateFee price size
  if userSide == "buy" then
    if quoteBal.available < cost + fee then .error .insufficientBalance
    else .ok (execFill st userSide baseAsset quoteAsset size price quoteBal baseBal)
  else
    if baseBal.available < size then .error .insufficientBase
    else .ok (execFill st userSide baseAsset quoteAsset size price quoteBal baseBal)

/-- `placeOrder` (orders.ts lines 37-265) together with the trace of
lock/create events of its transaction body.  Input validation and the
price check happen before the transaction; inside the transaction the
quote balance row is locked first (error if absent), then the base row is
locked and lazily created if absent, then the side-specific sufficiency
check and the mutation sequence run.  An error aborts the transaction: no
new state is produced (full rollback). -/
def placeOrderT (st : AccountState) (userSide : String)
    (baseAsset quoteAsset : Asset) (requestedSize executionPrice : ℚ) :
    List LockEvent × Except OrderError (AccountState × PlaceOrderResult) :=
  if validateOrderInput userSide "market" baseAsset quoteAsset requestedSize
      = false then
    ([], .error .validationFailed)
  else if executionPrice ≤ 0 then
    ([], .error .priceNotPositive)
  else
    match lookupA st.balances quoteAsset with
    | none => ([.lockBalance quoteAsset], .error (.noQuoteBalance quoteAsset))
    | some quoteBal =>
        (lockEvents st baseAsset quoteAsset,
         checkAndFill (lockBase st baseAsset) userSide baseAsset quoteAsset
           requestedSize executionPrice quoteBal (balOf st baseAsset))

/-- The state/result outcome of `placeOrder` (the committed transaction or
the error, with rollback implicit in the error case). -/
def placeOrder (st : AccountState) (userSide : String)
    (baseAsset quoteAsset : Asset) (requestedSize executionPrice : ℚ) :
    Except OrderError (AccountState × PlaceOrderResult) :=
  (placeOrderT st userSide baseAsset quoteAsset requestedSize executionPrice).2

/-- The state seen by the caller after a `placeOrder` call: the committed
state on success, the unchanged state on error (transaction rollback). -/
def runPlace (st : AccountState) (userSide : String)
    (baseAsset quoteAsset : Asset) (requestedSize executionPrice : ℚ) :
    AccountState :=
  match placeOrder st userSide baseAsset quoteAsset requestedSize executionPrice with
  | .error _ => st
  | .ok (stNew, _) => stNew

/-- Modelled from the spec: `portfolio.ts` (`initPortfolio`) is absent from
src.  Per spec sections 3 and 4.2, account initialization creates the quote
("USDC") balance row with the configured initial amount and zero locked;
no base balance, no positions, no orders, no trades exist yet. -/
def initState (q0 : ℚ) : AccountState :=
  ⟨[("USDC", ⟨q0, 0⟩)], [], [], []⟩

/-- States reachable from an initialized account by any sequence of
`placeOrder` calls (failed calls leave the state unchanged). -/
inductive Reachable (q0 : ℚ) : AccountState → Prop where
  | init : Reachable q0 (initState q0)
  | step (st : AccountState) (userSide baseAsset quoteAsset : String)
      (s p : ℚ) : Reachable q0 st →
      Reachable q0 (runPlace st userSide baseAsset quoteAsset s p)

/-- Demonstration account: initialized with 1000 USDC, after a buy of
1 SOL at price 10 (cost 10, fee 0.01; leaves 989.99 USDC, 1 SOL). -/
def demoAfterBuy : AccountState :=
  runPlace (initState 1000) "buy" "SOL" "USDC" 1 10

/-- Demonstration account after a further reversed-pair sell on
`demoAfterBuy`: sell 10 units of USDC as base asset against SOL as quote
asset at price 1. -/
def demoAfterCrossSell : AccountState :=
  runPlace demoAfterBuy "sell" "USDC" "SOL" 10 1

/-- Demonstration account: initialized with 1000 USDC, after a buy of
2 SOL at price 100 (cost 200, fee 0.2). -/
def demoBuy2 : AccountState :=
  runPlace (initState 1000) "buy" "SOL" "USDC" 2 100

/-- Demonstration account: `demoBuy2` followed by a second buy of 3 SOL at
price 150 (cost 450, fee 0.45). -/
def demoBuy2Then3 : AccountState :=
  runPlace demoBuy2 "buy" "SOL" "USDC" 3 150

/-! ### Lemmas about row lookup and update -/

theorem lookupA_cons {α : Type} (x : Asset × α) (xs : List (Asset × α))
    (a : Asset) :
    lookupA (x :: xs) a = if x.1 = a then some x.2 else lookupA xs a := by
  by_cases h : x.1 = a <;> simp [lookupA, List.find?_cons, h]

theorem lookupA_updateA_self {α : Type} (xs : List (Asset × α)) (a : Asset)
    (v : α) :
    lookupA (updateA xs a v) a = (lookupA xs a).map (fun _ => v) := by
  induction xs with
  | nil => rfl
  | cons x xs ih =>
      by_cases h : x.1 = a
      · simp [updateA, lookupA_cons, h]
      · simpa [updateA, lookupA_cons, h] using ih

theorem updateA_cons {α : Type} (x : Asset × α) (xs : List (Asset × α))
    (a : Asset) (v : α) :
    updateA (x :: xs) a v = (if x.1 = a then (a, v) else x) :: updateA xs a v := by
  by_cases hx : x.1 = a <;> simp [updateA, hx]

theorem lookupA_updateA_ne {α : Type} (xs : List (Asset × α)) (a b : Asset)
    (v : α) (h : a ≠ b) :
    lookupA (updateA xs b v) a = lookupA xs a := by
  induction xs with
  | nil => rfl
  | cons x xs ih =>
      rw [updateA_cons, lookupA_cons, lookupA_cons]
      by_cases hx : x.1 = b
      · simp [hx, Ne.symm h, ih]
      · simp [hx, ih]

theorem lookupA_append_self {α : Type} (xs : List (Asset × α)) (a : Asset)
    (v : α) (h : lookupA xs a = none) :
    lookupA (xs ++ [(a, v)]) a = some v := by
  induction xs with
  | nil => simp [lookupA]
  | cons x xs ih =>
      by_cases hx : x.1 = a
      · rw [lookupA_cons, if_pos hx] at h; cases h
      · rw [lookupA_cons, if_neg hx] at h
        simpa [lookupA_cons, hx] using ih h

theorem lookupA_append_ne {α : Type} (xs : List (Asset × α)) (a b : Asset)
    (v : α) (h : a ≠ b) :
    lookupA (xs ++ [(b, v)]) a = lookupA xs a := by
  induction xs with
  | nil =>
      have hba : (b == a) = false := by simp [Ne.symm h]
      simp [lookupA, List.find?, hba]
  | cons x xs ih => by_cases hx : x.1 = a <;> simp [lookupA_cons, hx, ih]

/-! ### Structural lemmas about the transaction steps -/

theorem lockBase_lookup_self (st : AccountState) (b : Asset) :
    lookupA (lockBase st b).balances b = some (balOf st b) := by
  unfold lockBase balOf
  cases h : lookupA st.balances b with
  | none => simp [h, lookupA_append_self]
  | some v => simp [h]

theorem lockBase_lookup_ne (st : AccountState) (a b : Asset) (h : a ≠ b) :
    lookupA (lockBase st b).balances a = lookupA st.balances a := by
  unfold lockBase
  cases hb : lookupA st.balances b <;> simp [lookupA_append_ne, h]

theorem lockBase_positions (st : AccountState) (b : Asset) :
    (lockBase st b).positions = st.positions := by
  unfold lockBase; cases hb : lookupA st.balances b <;> rfl

theorem lockBase_orders (st : AccountState) (b : Asset) :
    (lockBase st b).orders = st.orders := by
  unfold lockBase; cases hb : lookupA st.balances b <;> rfl

theorem lockBase_trades (st : AccountState) (b : Asset) :
    (lockBase st b).trades = st.trades := by
  unfold lockBase; cases hb : lookupA st.balances b <;> rfl

theorem applyBalances_positions (st : AccountState) (u : String)
    (b q : Asset) (s p : ℚ) (qb bb : Balance) :
    (applyBalances st u b q s p qb bb).positions = st.positions := by
  unfold applyBalances; cases h : (u == "buy") <;> simp [h]

theorem applyBalances_orders (st : AccountState) (u : String)
    (b q : Asset) (s p : ℚ) (qb bb : Balance) :
    (applyBalances st u b q s p qb bb).orders = st.orders := by
  unfold applyBalances; cases h : (u == "buy") <;> simp [h]

theorem applyBalances_trades (st : AccountState) (u : String)
    (b q : Asset) (s p : ℚ) (qb bb : Balance) :
    (applyBalances st u b q s p qb bb).trades = st.trades := by
  unfold applyBalances; cases h : (u == "buy") <;> simp [h]

theorem applyBalances_buy (st : AccountState) (b q : Asset) (s p : ℚ)
    (qb bb : Balance) (qv bv : Balance)
    (hq : lookupA st.balances q = some qv) (hb : lookupA st.balances b = some bv)
    (hne : b ≠ q) :
    balOf (applyBalances st "buy" b q s p qb bb) q
        = ⟨qb.available - s * p - calculateFee p s, qb.locked⟩
    ∧ balOf (applyBalances st "buy" b q s p qb bb) b
        = ⟨bb.available + s, bb.locked⟩ := by
  have hqb : q ≠ b := Ne.symm hne
  constructor
  · unfold applyBalances balOf
    rw [show (("buy" : String) == "buy") = true from rfl]
    simp [lookupA_updateA_ne _ q b _ hqb, lookupA_updateA_self, hq]
  · unfold applyBalances balOf
    rw [show (("buy" : String) == "buy") = true from rfl]
    simp [lookupA_updateA_self, lookupA_updateA_ne _ b q _ hne, hb]

theorem applyBalances_sell (st : AccountState) (u : String) (b q : Asset)
    (s p : ℚ) (qb bb : Balance) (qv bv : Balance)
    (hu : (u == "buy") = false)
    (hq : lookupA st.balances q = some qv) (hb : lookupA st.balances b = some bv)
    (hne : b ≠ q) :
    balOf (applyBalances st u b q s p qb bb) b
        = ⟨bb.available - s, bb.locked⟩
    ∧ balOf (applyBalances st u b q s p qb bb) q
        = ⟨qb.available + (p * s - calculateFee p s), qb.locked⟩ := by
  have hqb : q ≠ b := Ne.symm hne
  constructor
  · unfold applyBalances balOf
    rw [hu]
    simp [lookupA_updateA_ne _ b q _ hne, lookupA_updateA_self, hb]
  · unfold applyBalances balOf
    rw [hu]
    simp [lookupA_updateA_self, lookupA_updateA_ne _ q b _ hqb, hq]

theorem applyPosition_balances (st : AccountState) (u : String) (b : Asset)
    (s p : ℚ) :
    (applyPosition st u b s p).balances = st.balances := by
  unfold applyPosition; cases h : lookupA st.positions b <;> simp [h]

theorem applyPosition_orders (st : AccountState) (u : String) (b : Asset)
    (s p : ℚ) :
    (applyPosition st u b s p).orders = st.orders := by
  unfold applyPosition; cases h : lookupA st.positions b <;> simp [h]

theorem applyPosition_trades (st : AccountState) (u : String) (b : Asset)
    (s p : ℚ) :
    (applyPosition st u b s p).trades = st.trades := by
  unfold applyPosition; cases h : lookupA st.positions b <;> simp [h]

theorem applyPosition_posOf (st : AccountState) (u : String) (b : Asset)
    (s p : ℚ) :
    posOf (applyPosition st u b s p) b
      = positionTransition u (posOf st b) s p := by
  unfold applyPosition posOf
  cases h : lookupA st.positions b with
  | none => simp [h, lookupA_updateA_self, lookupA_append_self _ _ _ h]
  | some v => simp [h, lookupA_updateA_self]

theorem execFill_snd (st : AccountState) (u : String) (b q : Asset)
    (s p : ℚ) (qb bb : Balance) :
    (execFill st u b q s p qb bb).2
      = ⟨st.orders.length, s, p, calculateFee p s, "filled"⟩ := rfl

theorem execFill_orders (st : AccountState) (u : String) (b q : Asset)
    (s p : ℚ) (qb bb : Balance) :
    (execFill st u b q s p qb bb).1.orders
      = st.orders ++ [⟨u, "market", b, q, s, p, "filled", calculateFee p s⟩] := by
  unfold execFill
  rw [applyPosition_orders, applyBalances_orders]

theorem execFill_trades (st : AccountState) (u : String) (b q : Asset)
    (s p : ℚ) (qb bb : Balance) :
    (execFill st u b q s p qb bb).1.trades
      = st.trades ++ [⟨st.orders.length, u, p, s, calculateFee p s⟩] := by
  unfold execFill
  rw [applyPosition_trades, applyBalances_trades]

theorem execFill_posOf (st : AccountState) (u : String) (b q : Asset)
    (s p : ℚ) (qb bb : Balance) :
    posOf (execFill st u b q s p qb bb).1 b
      = positionTransition u (posOf st b) s p := by
  unfold execFill
  rw [applyPosition_posOf]
  unfold posOf
  rw [show (applyBalances { st with
      orders := st.orders ++ [⟨u, "market", b, q, s, p, "filled", calculateFee p s⟩],
      trades := st.trades ++ [⟨st.orders.length, u, p, s, calculateFee p s⟩] }
      u b q s p qb bb).positions = st.positions from applyBalances_positions _ _ _ _ _ _ _ _]

theorem execFill_balances (st : AccountState) (u : String) (b q : Asset)
    (s p : ℚ) (qb bb : Balance) :
    (execFill st u b q s p qb bb).1.balances
      = (applyBalances st u b q s p qb bb).balances := by
  unfold execFill
  rw [applyPosition_balances]
  unfold applyBalances
  cases h : (u == "buy") <;> simp [h]

/-! ### Characterization of placeOrder -/

theorem validateOrderInput_elim (side type b q : String) (s : ℚ)
    (h : validateOrderInput side type b q s = true) :
    (side = "buy" ∨ side = "sell") ∧ type = "market" ∧ 0 < s
      ∧ MIN_POSITION_SIZE ≤ s ∧ b ≠ q := by
  simp only [validateOrderInput, Bool.and_eq_true, Bool.or_eq_true, beq_iff_eq,
    decide_eq_true_eq, bne_iff_ne] at h
  tauto

theorem placeOrder_ok_elim (st st2 : AccountState) (res : PlaceOrderResult)
    (u : String) (b q : Asset) (s p : ℚ)
    (h : placeOrder st u b q s p = .ok (st2, res)) :
    validateOrderInput u "market" b q s = true ∧ ¬ p ≤ 0 ∧
    ∃ qb, lookupA st.balances q = some qb ∧
      ((u == "buy") = true → ¬ qb.available < s * p + calculateFee p s) ∧
      ((u == "buy") = false → ¬ (balOf st b).available < s) ∧
      (st2, res) = execFill (lockBase st b) u b q s p qb (balOf st b) := by
  unfold placeOrder placeOrderT at h
  cases hv : validateOrderInput u "market" b q s with
  | false => rw [hv] at h; simp at h
  | true =>
      rw [hv] at h
      simp only [Bool.true_eq_false, if_false] at h
      by_cases hp : p ≤ 0
      · rw [if_pos hp] at h; simp at h
      · rw [if_neg hp] at h
        cases hq : lookupA st.balances q with
        | none => rw [hq] at h; simp at h
        | some qb =>
            rw [hq] at h
            simp only [] at h
            unfold checkAndFill at h
            cases hbuy : (u == "buy") with
            | false =>
                rw [hbuy] at h
                simp only [Bool.false_eq_true, if_false] at h
                by_cases hlt : (balOf st b).available < s
                · rw [if_pos hlt] at h; simp at h
                · rw [if_neg hlt] at h
                  refine ⟨rfl, hp, qb, rfl, ?_, ?_, ?_⟩
                  · intro hcontra; simp at hcontra
                  · intro hdummy; exact hlt
                  · simpa using h.symm
            | true =>
                rw [hbuy] at h
                simp only [if_true] at h
                by_cases hlt : qb.available < s * p + calculateFee p s
                · rw [if_pos hlt] at h; simp at h
                · rw [if_neg hlt] at h
                  refine ⟨rfl, hp, qb, rfl, ?_, ?_, ?_⟩
                  · intro hdummy; exact hlt
                  · intro hcontra; simp at hcontra
                  · simpa using h.symm

theorem placeOrder_ok_intro (st : AccountState) (u : String) (b q : Asset)
    (s p : ℚ) (qb : Balance)
    (hv : validateOrderInput u "market" b q s = true) (hp : ¬ p ≤ 0)
    (hq : lookupA st.balances q = some qb)
    (hbuy : (u == "buy") = true → ¬ qb.available < s * p + calculateFee p s)
    (hsell : (u == "buy") = false → ¬ (balOf st b).available < s) :
    placeOrder st u b q s p
      = .ok (execFill (lockBase st b) u b q s p qb (balOf st b)) := by
  unfold placeOrder placeOrderT
  rw [hv]
  simp only [Bool.true_eq_false, if_false]
  rw [if_neg hp, hq]
  simp only []
  unfold checkAndFill
  cases hb : (u == "buy") with
  | false =>
      simp only [Bool.false_eq_true, if_false]
      rw [if_neg (hsell hb)]
  | true =>
      simp only [if_true]
      rw [if_neg (hbuy hb)]

/-! ### Claim theorems -/

/-- C10: in every execution of place, for both buy and sell sides, the
exclusive lock on the (userId, quoteAsset) balance row is acquired
strictly before the lock on the (userId, baseAsset) balance row (whenever
the base lock is acquired, the trace begins with the quote lock and then
the base lock), and a missing base balance row is lazily created with
zero available/locked at that same acquisition point. -/
theorem quote_lock_before_base_lock (st : AccountState) (u : String)
    (b q : Asset) (s p : ℚ)
    (hmem : LockEvent.lockBalance b ∈ (placeOrderT st u b q s p).1) :
    (placeOrderT st u b q s p).1.take 2
        = [LockEvent.lockBalance q, LockEvent.lockBalance b]
    ∧ (lookupA st.balances b = none →
        (placeOrderT st u b q s p).1
          = [LockEvent.lockBalance q, LockEvent.lockBalance b,
             LockEvent.createBalance b 0 0]) := by
  unfold placeOrderT at hmem ⊢
  by_cases hvf : validateOrderInput u "market" b q s = false
  · rw [if_pos hvf] at hmem; simp at hmem
  · have hv : validateOrderInput u "market" b q s = true := by
      cases hvb : validateOrderInput u "market" b q s
      · exact absurd hvb hvf
      · rfl
    rw [if_neg hvf] at hmem ⊢
    by_cases hp : p ≤ 0
    · rw [if_pos hp] at hmem; simp at hmem
    · rw [if_neg hp] at hmem ⊢
      cases hq : lookupA st.balances q with
      | none =>
          rw [hq] at hmem
          simp only [List.mem_singleton] at hmem
          obtain ⟨-, -, -, -, hne⟩ := validateOrderInput_elim _ _ _ _ _ hv
          injection hmem with heq
          exact absurd heq hne
      | some qb =>
          constructor
          · show List.take 2 (lockEvents st b q) = _
            unfold lockEvents
            cases hb : lookupA st.balances b <;> rfl
          · intro hnone
            show lockEvents st b q = _
            unfold lockEvents
            rw [hnone]
            rfl

/-- Witness for C10 at a concrete input: a first-ever buy of SOL with
USDC locks the quote row first, then the base row, and creates the
missing base row with zeros at that point. -/
theorem quote_lock_before_base_lock_witness :
    LockEvent.lockBalance "SOL"
        ∈ (placeOrderT (initState 1000) "buy" "SOL" "USDC" 1 10).1
    ∧ ((placeOrderT (initState 1000) "buy" "SOL" "USDC" 1 10).1.take 2
        = [LockEvent.lockBalance "USDC", LockEvent.lockBalance "SOL"]
      ∧ (lookupA (initState 1000).balances "SOL" = none →
          (placeOrderT (initState 1000) "buy" "SOL" "USDC" 1 10).1
            = [LockEvent.lockBalance "USDC", LockEvent.lockBalance "SOL",
               LockEvent.createBalance "SOL" 0 0])) := by
  have hmem : LockEvent.lockBalance "SOL"
      ∈ (placeOrderT (initState 1000) "buy" "SOL" "USDC" 1 10).1 := by decide
  exact ⟨hmem, quote_lock_before_base_lock (initState 1000) "buy" "SOL" "USDC" 1 10 hmem⟩

/-- C3: the preconditions (side, minimum size, positive price, distinct
assets) are all checked before any balance row lock is taken: on any
violation the lock trace is empty, the call fails with the typed
validation error (or the typed price error), and the ledger state is
untouched. -/
theorem validation_before_locks (st : AccountState) (u : String)
    (b q : Asset) (s p : ℚ)
    (h : validateOrderInput u "market" b q s = false ∨ p ≤ 0) :
    (placeOrderT st u b q s p).1 = []
    ∧ ((placeOrderT st u b q s p).2 = .error .validationFailed
       ∨ (placeOrderT st u b q s p).2 = .error .priceNotPositive)
    ∧ runPlace st u b q s p = st := by
  unfold runPlace placeOrder placeOrderT
  cases hv : validateOrderInput u "market" b q s with
  | false => simp
  | true =>
      rcases h with h | h
      · rw [hv] at h; cases h
      · simp only [Bool.true_eq_false, if_false]
        rw [if_pos h]
        simp

/-- Witness for C3 at a concrete input: selling 0.001 units (below
MIN_POSITION_SIZE = 0.01) is rejected by validation with no lock taken
and no state change. -/
theorem validation_before_locks_witness :
    (validateOrderInput "sell" "market" "SOL" "USDC" (1/1000) = false
        ∨ (100 : ℚ) ≤ 0)
    ∧ ((placeOrderT (initState 1000) "sell" "SOL" "USDC" (1/1000) 100).1 = []
      ∧ ((placeOrderT (initState 1000) "sell" "SOL" "USDC" (1/1000) 100).2
            = .error .validationFailed
         ∨ (placeOrderT (initState 1000) "sell" "SOL" "USDC" (1/1000) 100).2
            = .error .priceNotPositive)
      ∧ runPlace (initState 1000) "sell" "SOL" "USDC" (1/1000) 100
          = initState 1000) := by
  have h : validateOrderInput "sell" "market" "SOL" "USDC" (1/1000) = false
      ∨ (100 : ℚ) ≤ 0 := Or.inl (by decide)
  exact ⟨h, validation_before_locks (initState 1000) "sell" "SOL" "USDC" (1/1000) 100 h⟩

/-- C4: for every executed trade, the fee persisted on the order row's
feesApplied field, on the trade row's fee field, and reported in the
returned feesApplied equals executionPrice * requestedSize * FEE_RATE
exactly, where FEE_RATE is the fixed fraction 0.001. -/
theorem fee_exact (st st2 : AccountState) (res : PlaceOrderResult)
    (u : String) (b q : Asset) (s p : ℚ)
    (h : placeOrder st u b q s p = .ok (st2, res)) :
    FEE_RATE = 1 / 1000
    ∧ res.feesApplied = p * s * FEE_RATE
    ∧ st2.orders = st.orders
        ++ [⟨u, "market", b, q, s, p, "filled", p * s * FEE_RATE⟩]
    ∧ st2.trades = st.trades
        ++ [⟨st.orders.length, u, p, s, p * s * FEE_RATE⟩] := by
  obtain ⟨hv, hp, qb, hq, hbuy, hsell, heq⟩ :=
    placeOrder_ok_elim _ _ _ _ _ _ _ _ h
  have h1 : st2 = (execFill (lockBase st b) u b q s p qb (balOf st b)).1 :=
    congrArg Prod.fst heq
  have h2 : res = (execFill (lockBase st b) u b q s p qb (balOf st b)).2 :=
    congrArg Prod.snd heq
  refine ⟨rfl, ?_, ?_, ?_⟩
  · rw [h2, execFill_snd]; rfl
  · rw [h1, execFill_orders, lockBase_orders]; rfl
  · rw [h1, execFill_trades, lockBase_trades, lockBase_orders]; rfl

/-- Witness for C4 at a concrete input: buying 2 SOL at price 100 from
1000 USDC persists and returns fee 0.2 = 100 * 2 * 0.001 everywhere. -/
theorem fee_exact_witness :
    placeOrder (initState 1000) "buy" "SOL" "USDC" 2 100
        = .ok (demoBuy2, ⟨0, 2, 100, 1/5, "filled"⟩)
    ∧ (FEE_RATE = 1 / 1000
      ∧ (⟨0, 2, 100, 1/5, "filled"⟩ : PlaceOrderResult).feesApplied
          = 100 * 2 * FEE_RATE
      ∧ demoBuy2.orders = (initState 1000).orders
          ++ [⟨"buy", "market", "SOL", "USDC", 2, 100, "filled", 100 * 2 * FEE_RATE⟩]
      ∧ demoBuy2.trades = (initState 1000).trades
          ++ [⟨(initState 1000).orders.length, "buy", 100, 2, 100 * 2 * FEE_RATE⟩]) := by
  have h : placeOrder (initState 1000) "buy" "SOL" "USDC" 2 100
      = .ok (demoBuy2, ⟨0, 2, 100, 1/5, "filled"⟩) := by decide
  exact ⟨h, fee_exact (initState 1000) demoBuy2 ⟨0, 2, 100, 1/5, "filled"⟩
    "buy" "SOL" "USDC" 2 100 h⟩

theorem posOf_lockBase (st : AccountState) (b a : Asset) :
    posOf (lockBase st b) a = posOf st a := by
  unfold posOf; rw [lockBase_positions]

theorem positionTransition_buy (pos : Position) (s p : ℚ) :
    positionTransition "buy" pos s p
      = ⟨pos.size + s,
         if pos.size = 0 then p
         else (pos.size * pos.avgEntryPrice + p * s) / (pos.size + s)⟩ := rfl

theorem positionTransition_sell (u : String) (pos : Position) (s p : ℚ)
    (hu : (u == "buy") = false) :
    positionTransition u pos s p
      = ⟨pos.size - s, if pos.size - s = 0 then 0 else pos.avgEntryPrice⟩ := by
  unfold positionTransition
  rw [hu]
  simp

theorem buy_posOf_update (st st2 : AccountState) (res : PlaceOrderResult)
    (b q : Asset) (s p : ℚ)
    (h : placeOrder st "buy" b q s p = .ok (st2, res)) :
    posOf st2 b = ⟨(posOf st b).size + s,
      if (posOf st b).size = 0 then p
      else ((posOf st b).size * (posOf st b).avgEntryPrice + p * s)
            / ((posOf st b).size + s)⟩ := by
  obtain ⟨hv, hp, qb, hq, hbuy, hsell, heq⟩ :=
    placeOrder_ok_elim _ _ _ _ _ _ _ _ h
  have h1 : st2 = (execFill (lockBase st b) "buy" b q s p qb (balOf st b)).1 :=
    congrArg Prod.fst heq
  rw [h1, execFill_posOf, posOf_lockBase, positionTransition_buy]

theorem placeOrder_ok_size_pos (st st2 : AccountState) (res : PlaceOrderResult)
    (u : String) (b q : Asset) (s p : ℚ)
    (h : placeOrder st u b q s p = .ok (st2, res)) : 0 < s := by
  obtain ⟨hv, -⟩ := placeOrder_ok_elim _ _ _ _ _ _ _ _ h
  exact (validateOrderInput_elim _ _ _ _ _ hv).2.2.1

/-- C5: for every successful buy, the new position satisfies
newSize = size0 + requestedSize and newAvg = executionPrice when
size0 = 0, otherwise newAvg = (size0*avg0 + executionPrice*requestedSize)
/ newSize; hence buying s1 at p1 and then s2 at p2 from an empty position
yields avgEntryPrice = (s1*p1 + s2*p2) / (s1+s2). -/
theorem buy_weighted_average :
    (∀ (st st2 : AccountState) (res : PlaceOrderResult) (b q : Asset)
        (s p : ℚ),
        placeOrder st "buy" b q s p = .ok (st2, res) →
        posOf st2 b = ⟨(posOf st b).size + s,
          if (posOf st b).size = 0 then p
          else ((posOf st b).size * (posOf st b).avgEntryPrice + p * s)
                / ((posOf st b).size + s)⟩)
    ∧ (∀ (st stA stB : AccountState) (rA rB : PlaceOrderResult)
        (b q : Asset) (s1 p1 s2 p2 : ℚ),
        posOf st b = ⟨0, 0⟩ →
        placeOrder st "buy" b q s1 p1 = .ok (stA, rA) →
        placeOrder stA "buy" b q s2 p2 = .ok (stB, rB) →
        (posOf stB b).avgEntryPrice = (s1 * p1 + s2 * p2) / (s1 + s2)) := by
  constructor
  · intro st st2 res b q s p h
    exact buy_posOf_update st st2 res b q s p h
  · intro st stA stB rA rB b q s1 p1 s2 p2 h0 h1 h2
    have hs1 : 0 < s1 := placeOrder_ok_size_pos _ _ _ _ _ _ _ _ h1
    have hA : posOf stA b = ⟨s1, p1⟩ := by
      rw [buy_posOf_update _ _ _ _ _ _ _ h1, h0]
      simp
    have hB := buy_posOf_update _ _ _ _ _ _ _ h2
    rw [hA] at hB
    simp only [] at hB
    rw [hB]
    rw [if_neg (ne_of_gt hs1)]
    ring_nf

/-- Witness for C5 at a concrete input (spec scenario 2): buying 2 SOL at
100 and then 3 SOL at 150 from an empty position yields
avgEntryPrice = (2*100 + 3*150)/(2+3) = 130. -/
theorem buy_weighted_average_witness :
    posOf (initState 1000) "SOL" = ⟨0, 0⟩
    ∧ placeOrder (initState 1000) "buy" "SOL" "USDC" 2 100
        = .ok (demoBuy2, ⟨0, 2, 100, 1/5, "filled"⟩)
    ∧ placeOrder demoBuy2 "buy" "SOL" "USDC" 3 150
        = .ok (demoBuy2Then3, ⟨1, 3, 150, 9/20, "filled"⟩)
    ∧ (posOf demoBuy2Then3 "SOL").avgEntryPrice
        = (2 * 100 + 3 * 150) / (2 + 3) := by
  have h0 : posOf (initState 1000) "SOL" = ⟨0, 0⟩ := by decide
  have h1 : placeOrder (initState 1000) "buy" "SOL" "USDC" 2 100
      = .ok (demoBuy2, ⟨0, 2, 100, 1/5, "filled"⟩) := by decide
  have h2 : placeOrder demoBuy2 "buy" "SOL" "USDC" 3 150
      = .ok (demoBuy2Then3, ⟨1, 3, 150, 9/20, "filled"⟩) := by decide
  exact ⟨h0, h1, h2, buy_weighted_average.2 (initState 1000) demoBuy2
    demoBuy2Then3 _ _ "SOL" "USDC" 2 100 3 150 h0 h1 h2⟩

/-- C8: for every successful sell, the position's avgEntryPrice after the
operation equals its value before, unless the resulting size is 0, in
which case it equals 0; the formula does not involve the sell's execution
price. -/
theorem sell_avg_neutral (st st2 : AccountState) (res : PlaceOrderResult)
    (b q : Asset) (s p : ℚ)
    (h : placeOrder st "sell" b q s p = .ok (st2, res)) :
    posOf st2 b = ⟨(posOf st b).size - s,
      if (posOf st b).size - s = 0 then 0
      else (posOf st b).avgEntryPrice⟩ := by
  obtain ⟨hv, hp, qb, hq, hbuy, hsell, heq⟩ :=
    placeOrder_ok_elim _ _ _ _ _ _ _ _ h
  have h1 : st2 = (execFill (lockBase st b) "sell" b q s p qb (balOf st b)).1 :=
    congrArg Prod.fst heq
  rw [h1, execFill_posOf, posOf_lockBase,
    positionTransition_sell "sell" _ _ _ rfl]

/-- Witness for C8 at a concrete input (spec scenario 4): fully closing a
1 SOL position at a different price 12 resets avgEntryPrice to 0. -/
theorem sell_avg_neutral_witness :
    placeOrder demoAfterBuy "sell" "SOL" "USDC" 1 12
        = .ok (runPlace demoAfterBuy "sell" "SOL" "USDC" 1 12,
               ⟨1, 1, 12, 3/250, "filled"⟩)
    ∧ posOf (runPlace demoAfterBuy "sell" "SOL" "USDC" 1 12) "SOL"
        = ⟨(posOf demoAfterBuy "SOL").size - 1,
           if (posOf demoAfterBuy "SOL").size - 1 = 0 then 0
           else (posOf demoAfterBuy "SOL").avgEntryPrice⟩ := by
  have h : placeOrder demoAfterBuy "sell" "SOL" "USDC" 1 12
      = .ok (runPlace demoAfterBuy "sell" "SOL" "USDC" 1 12,
             ⟨1, 1, 12, 3/250, "filled"⟩) := by decide
  exact ⟨h, sell_avg_neutral demoAfterBuy _ _ "SOL" "USDC" 1 12 h⟩

theorem applyBalances_lookup_other (st : AccountState) (u : String)
    (b q : Asset) (s p : ℚ) (qb bb : Balance) (a : Asset)
    (hab : a ≠ b) (haq : a ≠ q) :
    lookupA (applyBalances st u b q s p qb bb).balances a
      = lookupA st.balances a := by
  unfold applyBalances
  cases h : (u == "buy") <;>
    simp [h, lookupA_updateA_ne _ a _ _ hab, lookupA_updateA_ne _ a _ _ haq]

theorem placeOrder_buy_balances (st st2 : AccountState)
    (res : PlaceOrderResult) (b q : Asset) (s p : ℚ)
    (h : placeOrder st "buy" b q s p = .ok (st2, res)) :
    balOf st2 q = ⟨(balOf st q).available - (s * p + calculateFee p s),
                   (balOf st q).locked⟩
    ∧ balOf st2 b = ⟨(balOf st b).available + s, (balOf st b).locked⟩ := by
  obtain ⟨hv, hp, qb, hq, -, -, heq⟩ := placeOrder_ok_elim _ _ _ _ _ _ _ _ h
  obtain ⟨-, -, -, -, hne⟩ := validateOrderInput_elim _ _ _ _ _ hv
  have h1 : st2 = (execFill (lockBase st b) "buy" b q s p qb (balOf st b)).1 :=
    congrArg Prod.fst heq
  have hq0 : balOf st q = qb := by unfold balOf; rw [hq]; rfl
  have hq' : lookupA (lockBase st b).balances q = some qb := by
    rw [lockBase_lookup_ne st q b (Ne.symm hne)]; exact hq
  have hb' : lookupA (lockBase st b).balances b = some (balOf st b) :=
    lockBase_lookup_self st b
  have hbal : ∀ a, balOf st2 a
      = balOf (applyBalances (lockBase st b) "buy" b q s p qb (balOf st b)) a := by
    intro a
    rw [h1]; unfold balOf; rw [execFill_balances]
  have key := applyBalances_buy (lockBase st b) b q s p qb (balOf st b)
    qb (balOf st b) hq' hb' hne
  constructor
  · rw [hbal q, key.1, hq0]
    simp only [Balance.mk.injEq, and_true]
    ring
  · rw [hbal b, key.2]

theorem placeOrder_sell_balances (st st2 : AccountState)
    (res : PlaceOrderResult) (b q : Asset) (s p : ℚ)
    (h : placeOrder st "sell" b q s p = .ok (st2, res)) :
    balOf st2 b = ⟨(balOf st b).available - s, (balOf st b).locked⟩
    ∧ balOf st2 q = ⟨(balOf st q).available + (p * s - calculateFee p s),
                     (balOf st q).locked⟩ := by
  obtain ⟨hv, hp, qb, hq, -, -, heq⟩ := placeOrder_ok_elim _ _ _ _ _ _ _ _ h
  obtain ⟨-, -, -, -, hne⟩ := validateOrderInput_elim _ _ _ _ _ hv
  have h1 : st2 = (execFill (lockBase st b) "sell" b q s p qb (balOf st b)).1 :=
    congrArg Prod.fst heq
  have hq0 : balOf st q = qb := by unfold balOf; rw [hq]; rfl
  have hq' : lookupA (lockBase st b).balances q = some qb := by
    rw [lockBase_lookup_ne st q b (Ne.symm hne)]; exact hq
  have hb' : lookupA (lockBase st b).balances b = some (balOf st b) :=
    lockBase_lookup_self st b
  have hbal : ∀ a, balOf st2 a
      = balOf (applyBalances (lockBase st b) "sell" b q s p qb (balOf st b)) a := by
    intro a
    rw [h1]; unfold balOf; rw [execFill_balances]
  have key := applyBalances_sell (lockBase st b) "sell" b q s p qb (balOf st b)
    qb (balOf st b) rfl hq' hb' hne
  exact ⟨by rw [hbal b, key.1], by rw [hbal q, key.2, hq0]⟩

/-- C6: for every successful place, the committed balance changes are
exactly: on buy, quote available decreases by requestedSize*executionPrice
+ fee and base available increases by requestedSize; on sell, base
available decreases by requestedSize and quote available increases by
executionPrice*requestedSize - fee; the locked field of both rows is
written back unchanged. -/
theorem balance_deltas (st st2 : AccountState) (res : PlaceOrderResult)
    (u : String) (b q : Asset) (s p : ℚ)
    (h : placeOrder st u b q s p = .ok (st2, res)) :
    (u = "buy" →
        balOf st2 q = ⟨(balOf st q).available - (s * p + calculateFee p s),
                       (balOf st q).locked⟩
      ∧ balOf st2 b = ⟨(balOf st b).available + s, (balOf st b).locked⟩)
    ∧ (u = "sell" →
        balOf st2 b = ⟨(balOf st b).available - s, (balOf st b).locked⟩
      ∧ balOf st2 q = ⟨(balOf st q).available + (p * s - calculateFee p s),
                       (balOf st q).locked⟩)
    ∧ (∀ a, a ≠ b → a ≠ q → balOf st2 a = balOf st a) := by
  refine ⟨?_, ?_, ?_⟩
  · intro hu; subst hu; exact placeOrder_buy_balances st st2 res b q s p h
  · intro hu; subst hu; exact placeOrder_sell_balances st st2 res b q s p h
  · intro a hab haq
    obtain ⟨hv, hp, qb, hq, -, -, heq⟩ := placeOrder_ok_elim _ _ _ _ _ _ _ _ h
    have h1 : st2 = (execFill (lockBase st b) u b q s p qb (balOf st b)).1 :=
      congrArg Prod.fst heq
    rw [h1]
    unfold balOf
    rw [execFill_balances,
      applyBalances_lookup_other (lockBase st b) u b q s p qb _ a hab haq,
      lockBase_lookup_ne st a b hab]

/-- Witness for C6 at a concrete input: buying 2 SOL at 100 from 1000
USDC moves quote available from 1000 to 799.8 and base from 0 to 2, with
locked unchanged. -/
theorem balance_deltas_witness :
    placeOrder (initState 1000) "buy" "SOL" "USDC" 2 100
        = .ok (demoBuy2, ⟨0, 2, 100, 1/5, "filled"⟩)
    ∧ (("buy" = "buy" →
        balOf demoBuy2 "USDC"
            = ⟨(balOf (initState 1000) "USDC").available
                - (2 * 100 + calculateFee 100 2),
               (balOf (initState 1000) "USDC").locked⟩
      ∧ balOf demoBuy2 "SOL"
            = ⟨(balOf (initState 1000) "SOL").available + 2,
               (balOf (initState 1000) "SOL").locked⟩)
    ∧ ("buy" = "sell" →
        balOf demoBuy2 "SOL"
            = ⟨(balOf (initState 1000) "SOL").available - 2,
               (balOf (initState 1000) "SOL").locked⟩
      ∧ balOf demoBuy2 "USDC"
            = ⟨(balOf (initState 1000) "USDC").available
                + (100 * 2 - calculateFee 100 2),
               (balOf (initState 1000) "USDC").locked⟩)
    ∧ (∀ a, a ≠ "SOL" → a ≠ "USDC" →
        balOf demoBuy2 a = balOf (initState 1000) a)) := by
  have h : placeOrder (initState 1000) "buy" "SOL" "USDC" 2 100
      = .ok (demoBuy2, ⟨0, 2, 100, 1/5, "filled"⟩) := by decide
  exact ⟨h, balance_deltas (initState 1000) demoBuy2
    ⟨0, 2, 100, 1/5, "filled"⟩ "buy" "SOL" "USDC" 2 100 h⟩

theorem placeOrder_buy_insufficient (st : AccountState) (b q : Asset)
    (s p : ℚ) (qb : Balance)
    (hv : validateOrderInput "buy" "market" b q s = true) (hp : ¬ p ≤ 0)
    (hq : lookupA st.balances q = some qb)
    (hlt : qb.available < s * p + calculateFee p s) :
    placeOrder st "buy" b q s p = .error .insufficientBalance := by
  unfold placeOrder placeOrderT
  rw [hv]
  simp only [Bool.true_eq_false, if_false]
  rw [if_neg hp, hq]
  simp only []
  unfold checkAndFill
  simp [hlt]

/-- C7: for every buy with valid inputs and an existing quote balance row,
place succeeds if and only if quoteAvailable ≥ requestedSize*executionPrice
+ fee; when the check fails the call is rejected with the insufficient
balance error and the state is unchanged (no partial fill). -/
theorem buy_iff_sufficient (st : AccountState) (b q : Asset) (s p : ℚ)
    (qb : Balance)
    (hv : validateOrderInput "buy" "market" b q s = true) (hp : 0 < p)
    (hq : lookupA st.balances q = some qb) :
    ((∃ st2 res, placeOrder st "buy" b q s p = .ok (st2, res))
        ↔ s * p + calculateFee p s ≤ qb.available)
    ∧ (qb.available < s * p + calculateFee p s →
        placeOrder st "buy" b q s p = .error .insufficientBalance
        ∧ runPlace st "buy" b q s p = st) := by
  have hp' : ¬ p ≤ 0 := not_le.mpr hp
  constructor
  · constructor
    · rintro ⟨st2, res, h⟩
      obtain ⟨-, -, qb', hq', hbuy, -, -⟩ := placeOrder_ok_elim _ _ _ _ _ _ _ _ h
      rw [hq] at hq'
      injection hq' with hqq
      subst hqq
      exact not_lt.mp (hbuy rfl)
    · intro hle
      refine ⟨_, _, placeOrder_ok_intro st "buy" b q s p qb hv hp' hq ?_ ?_⟩
      · intro hdummy; exact not_lt.mpr hle
      · intro habs; simp at habs
  · intro hlt
    have herr := placeOrder_buy_insufficient st b q s p qb hv hp' hq hlt
    refine ⟨herr, ?_⟩
    unfold runPlace
    rw [herr]

/-- Witness for C7 at a concrete input: with only 1 USDC available, a buy
of 1 SOL at price 10 (cost 10, fee 0.01) is rejected with the
insufficient-balance error and the state is unchanged. -/
theorem buy_iff_sufficient_witness :
    validateOrderInput "buy" "market" "SOL" "USDC" 1 = true
    ∧ (0 : ℚ) < 10
    ∧ lookupA (initState 1).balances "USDC" = some ⟨1, 0⟩
    ∧ (((∃ st2 res, placeOrder (initState 1) "buy" "SOL" "USDC" 1 10
            = .ok (st2, res))
          ↔ 1 * 10 + calculateFee 10 1 ≤ (⟨1, 0⟩ : Balance).available)
      ∧ ((⟨1, 0⟩ : Balance).available < 1 * 10 + calculateFee 10 1 →
          placeOrder (initState 1) "buy" "SOL" "USDC" 1 10
              = .error .insufficientBalance
          ∧ runPlace (initState 1) "buy" "SOL" "USDC" 1 10 = initState 1)) := by
  have hv : validateOrderInput "buy" "market" "SOL" "USDC" 1 = true := by decide
  have hp : (0 : ℚ) < 10 := by norm_num
  have hq : lookupA (initState 1).balances "USDC" = some ⟨1, 0⟩ := by decide
  exact ⟨hv, hp, hq, buy_iff_sufficient (initState 1) "SOL" "USDC" 1 10 ⟨1, 0⟩ hv hp hq⟩

theorem reachable_orders_filled (q0 : ℚ) (st : AccountState)
    (h : Reachable q0 st) : ∀ o ∈ st.orders, o.status = "filled" := by
  induction h with
  | init => intro o ho; simp [initState] at ho
  | step st u b q s p hr ih =>
      intro o ho
      unfold runPlace at ho
      cases hres : placeOrder st u b q s p with
      | error e => rw [hres] at ho; exact ih o ho
      | ok pr =>
          obtain ⟨st2, res⟩ := pr
          rw [hres] at ho
          simp only [] at ho
          obtain ⟨hv, hp, qb, hq, -, -, heq⟩ :=
            placeOrder_ok_elim _ _ _ _ _ _ _ _ hres
          have h1 : st2 = (execFill (lockBase st b) u b q s p qb (balOf st b)).1 :=
            congrArg Prod.fst heq
          rw [h1, execFill_orders, lockBase_orders] at ho
          rcases List.mem_append.mp ho with hmem | hmem
          · exact ih o hmem
          · simp only [List.mem_singleton] at hmem
            rw [hmem]

/-- C9: every order row ever persisted has status "filled" (in every
reachable state), and whenever place fails at any point the caller's
state is unchanged: the transaction rolls back atomically, persisting no
order row, no trade row and no balance or position change. -/
theorem orders_filled_and_rollback (q0 : ℚ) (st : AccountState)
    (u b q : String) (s p : ℚ) (e : OrderError)
    (h : Reachable q0 st) :
    (∀ o ∈ st.orders, o.status = "filled")
    ∧ (placeOrder st u b q s p = .error e → runPlace st u b q s p = st) := by
  refine ⟨reachable_orders_filled q0 st h, ?_⟩
  intro herr
  unfold runPlace
  rw [herr]

/-- Witness for C9 at a concrete input: the initialized account is
reachable, its (empty) order table is all-"filled", and the rejected
first-ever sell (insufficient base) leaves the state unchanged. -/
theorem orders_filled_and_rollback_witness :
    Reachable 1000 (initState 1000)
    ∧ ((∀ o ∈ (initState 1000).orders, o.status = "filled")
      ∧ (placeOrder (initState 1000) "sell" "SOL" "USDC" 1 10
            = .error .insufficientBase →
          runPlace (initState 1000) "sell" "SOL" "USDC" 1 10 = initState 1000)) :=
  ⟨Reachable.init,
   orders_filled_and_rollback 1000 (initState 1000) "sell" "SOL" "USDC"
     1 10 .insufficientBase Reachable.init⟩

/-- C1 (amended): for every sell order, place requires
baseAvailable ≥ requestedSize before any mutation (success implies the
base balance covered the size); the tracked position size is not
separately checked, so the oversell rejection holds exactly in states
where the base balance equals the position size: there, every sell with
requestedSize greater than the position size is rejected. -/
theorem sell_requires_base_balance (st st2 : AccountState) (b q : Asset)
    (s p : ℚ) (res : PlaceOrderResult) :
    (placeOrder st "sell" b q s p = .ok (st2, res)
        → s ≤ (balOf st b).available)
    ∧ ((balOf st b).available = (posOf st b).size → (posOf st b).size < s →
        placeOrder st "sell" b q s p ≠ .ok (st2, res)) := by
  constructor
  · intro h
    obtain ⟨-, -, qb, -, -, hsell, -⟩ := placeOrder_ok_elim _ _ _ _ _ _ _ _ h
    exact not_lt.mp (hsell rfl)
  · intro hbp hover h
    obtain ⟨-, -, qb, -, -, hsell, -⟩ := placeOrder_ok_elim _ _ _ _ _ _ _ _ h
    have hle : s ≤ (balOf st b).available := not_lt.mp (hsell rfl)
    rw [hbp] at hle
    exact absurd hover (not_lt.mpr hle)

/-- Witness for C1 (amended) at a concrete input: on the freshly
initialized account the SOL balance (0) equals the SOL position size (0),
so a sell of 1 SOL is rejected. -/
theorem sell_requires_base_balance_witness :
    (balOf (initState 1000) "SOL").available
        = (posOf (initState 1000) "SOL").size
    ∧ (posOf (initState 1000) "SOL").size < 1
    ∧ placeOrder (initState 1000) "sell" "SOL" "USDC" 1 10
        ≠ .ok (initState 1000, ⟨0, 1, 10, 1/100, "filled"⟩) := by
  have h1 : (balOf (initState 1000) "SOL").available
      = (posOf (initState 1000) "SOL").size := by decide
  have h2 : (posOf (initState 1000) "SOL").size < 1 := by decide
  exact ⟨h1, h2, (sell_requires_base_balance (initState 1000) (initState 1000)
    "SOL" "USDC" 1 10 ⟨0, 1, 10, 1/100, "filled"⟩).2 h1 h2⟩

/-- C1 counterexample: in the reachable state after buying 1 SOL, a sell
of 10 USDC as base asset against SOL as quote asset has requestedSize 10
strictly greater than the tracked USDC position size 0, yet place
succeeds and the order fills: the claimed position-size precondition is
not checked anywhere. -/
theorem oversell_fills_cex :
    Reachable 1000 demoAfterBuy
    ∧ (posOf demoAfterBuy "USDC").size = 0
    ∧ ((0 : ℚ) < 10)
    ∧ placeOrder demoAfterBuy "sell" "USDC" "SOL" 10 1
        = .ok (demoAfterCrossSell, ⟨1, 10, 1, 1/100, "filled"⟩) :=
  ⟨Reachable.step _ _ _ _ _ _ Reachable.init, by decide, by decide, by decide⟩

/-- C2 at the failing input: from an account initialized with 1000 USDC,
buying 1 SOL at price 10 and then selling 10 USDC as base asset against
SOL as quote asset at price 1 reaches a state whose USDC position row has
size -10 < 0, violating the claimed invariant position.size ≥ 0. -/
theorem negative_position_reachable :
    Reachable 1000 demoAfterCrossSell
    ∧ lookupA demoAfterCrossSell.positions "USDC" = some ⟨-10, 0⟩
    ∧ ((-10 : ℚ) < 0) :=
  ⟨Reachable.step _ _ _ _ _ _ (Reachable.step _ _ _ _ _ _ Reachable.init),
   by decide, by decide⟩

end PaperTrading
